import Mathlib

/-!
Shallow embedding of the feed-collection pipeline of
`scripts/fetch_news.py` (news aggregator): text sanitization
(`safe_text` and the inline summary cleaning), timestamp resolution
(`normalize_dt` fallback chain), fetch retry (`fetch_feed_with_retry`),
and aggregation (`collect_items`: recency filter, dedup by link,
descending sort, truncation to `MAX_ITEMS_PER_DAY`).

Machine conventions: instants (timezone-aware datetimes) are embedded
as `Int` seconds on a single timeline, so `timedelta(hours=h)` is
`h * 3600` and datetime comparison is `Int` comparison.  Strings are
Lean `String` (lists of characters), matching Python character-level
slicing and regular expressions over the ASCII inputs the claims use.
External libraries (dateutil's parser, `time.mktime`, `hashlib.sha1`)
are modelled as function parameters: the pipeline's own logic never
inspects their output beyond what the parameters provide.
-/

/-- Python `MAX_ITEMS_PER_DAY = 80` (line 35). -/
def MAX_ITEMS_PER_DAY : Nat := 80

/-- Python `RECENT_HOURS = 24` (line 36). -/
def RECENT_HOURS : Int := 24

/-! ## Character-level text processing

`re.sub(r"<.*?>", "", s)`, `re.sub(r"\s+", " ", s).strip()` and
`html.escape(s, quote=False)` are embedded as character-list scans. -/

/-- Python `\s` on the ASCII range: space, tab, newline, vertical tab,
form feed, carriage return. -/
def isSpaceCh (c : Char) : Bool :=
  c == ' ' || c == Char.ofNat 9 || c == Char.ofNat 10 ||
  c == Char.ofNat 11 || c == Char.ofNat 12 || c == Char.ofNat 13

/-- Scan for the closing board of a `<.*?>` match: the next character
equal to the closing angle bracket, with no newline before it (Python
`.` does not match a newline).  Returns the remainder after that
bracket, or `none` when no match starts here. -/
def findTagEnd : List Char → Option (List Char)
  | [] => none
  | c :: cs =>
    if c == Char.ofNat 62 then some cs
    else if c == Char.ofNat 10 then none
    else findTagEnd cs

/-- Fuelled scan embedding `re.sub(r"<.*?>", "", s)`: at each opening
angle bracket, the shortest run to a closing bracket (newline-free) is
removed; an unmatched opening bracket is kept.  The fuel is only a
termination device: with `fuel ≥ l.length` it never runs out. -/
def stripTagsGo : Nat → List Char → List Char
  | 0, _ => []
  | _, [] => []
  | fuel + 1, c :: cs =>
    if c == Char.ofNat 60 then
      match findTagEnd cs with
      | some rest => stripTagsGo fuel rest
      | none => c :: stripTagsGo fuel cs
    else
      c :: stripTagsGo fuel cs

def stripTagsL (l : List Char) : List Char := stripTagsGo l.length l

/-- Fuelled scan embedding `re.sub(r"\s+", " ", s)`: each maximal run
of whitespace becomes one space. -/
def collapseWsGo : Nat → List Char → List Char
  | 0, _ => []
  | _, [] => []
  | fuel + 1, c :: cs =>
    if isSpaceCh c then ' ' :: collapseWsGo fuel (cs.dropWhile isSpaceCh)
    else c :: collapseWsGo fuel cs

def collapseWsL (l : List Char) : List Char := collapseWsGo l.length l

/-- Python `str.strip()`: drop whitespace at both ends. -/
def stripEndsL (l : List Char) : List Char :=
  ((l.dropWhile isSpaceCh).reverse.dropWhile isSpaceCh).reverse

/-- `re.sub(r"\s+", " ", s).strip()` as used in `safe_text` (line 45)
and in the summary cleaning (line 159). -/
def cleanWsL (l : List Char) : List Char := stripEndsL (collapseWsL l)

/-- `html.escape(c, quote=False)` on one character: only the ampersand,
the opening angle bracket and the closing angle bracket are replaced by
entities; every other character (quotes included) passes through. -/
def escapeChar (c : Char) : List Char :=
  if c == Char.ofNat 38 then [Char.ofNat 38, 'a', 'm', 'p', ';']
  else if c == Char.ofNat 60 then [Char.ofNat 38, 'l', 't', ';']
  else if c == Char.ofNat 62 then [Char.ofNat 38, 'g', 't', ';']
  else [c]

/-- `html.escape(s, quote=False)` (line 44): the three sequential
`str.replace` calls are equivalent to this character-wise expansion,
since no replacement string contains a character replaced later. -/
def htmlEscapeL (l : List Char) : List Char := l.flatMap escapeChar

/-- `safe_text` (lines 40-46): escape, then collapse whitespace and
strip.  The empty-input early return coincides with the scans. -/
def safe_text (s : String) : String := ⟨cleanWsL (htmlEscapeL s.data)⟩

/-- Summary cleaning of `collect_items` (lines 158-161): strip tags,
collapse whitespace, then truncate to 300 characters with an ellipsis
marker when over the cap. -/
def truncateL (l : List Char) : List Char :=
  if 300 < l.length then l.take 300 ++ ['.', '.', '.'] else l

def clean_summary (s : String) : String := ⟨truncateL (cleanWsL (stripTagsL s.data))⟩

/-- The summary text as it lands in the output item (line 166):
`safe_text` applied to the cleaned, truncated summary. -/
def render_summary (s : String) : String := safe_text (clean_summary s)

/-- A character that the whole sanitization pipeline passes through
unchanged: not whitespace and not one of the three escaped
characters (in particular not an angle bracket). -/
def isPlainCh (c : Char) : Bool :=
  !isSpaceCh c && !(c == Char.ofNat 38) && !(c == Char.ofNat 60) && !(c == Char.ofNat 62)

/-! ## Data model -/

/-- One parsed feed entry (`feedparser` entry): every field the script
probes with `getattr(entry, field, default)` is optional.  The
pre-parsed timestamps (`published_parsed` / `updated_parsed`) are
`struct_time` tuples, embedded opaquely as integer lists. -/
structure RawEntry where
  link : Option String := none
  title : Option String := none
  summary : Option String := none
  description : Option String := none
  published : Option String := none
  updated : Option String := none
  published_parsed : Option (List Int) := none
  updated_parsed : Option (List Int) := none
deriving DecidableEq

/-- A parsed feed: `fp.feed.title` (optional) and `fp.entries`. -/
structure Feed where
  ftitle : Option String := none
  entries : List RawEntry := []
deriving DecidableEq

/-- The normalized item dict built at lines 163-170. -/
structure Item where
  id : String
  title : String
  summary : String
  link : String
  source : String
  published : Int
deriving DecidableEq

/-- Python `a or b` on strings: the first operand unless it is empty
(falsy), else the second. -/
def orStr (a b : String) : String := if a = "" then b else a

/-- Python `a or b` where `a` is an optional string (`getattr(entry,
"published", None) or ...`): `None` and the empty string are falsy. -/
def orOptStr (a b : Option String) : Option String :=
  match a with
  | none => b
  | some s => if s = "" then b else some s

/-- Python `a or b` on optional `struct_time` tuples: `None` and the
empty tuple are falsy. -/
def orOptStruct (a b : Option (List Int)) : Option (List Int) :=
  match a with
  | none => b
  | some t => if t = [] then b else some t

/-- Python `a or b` on optional instants (`normalize_dt(...) or
normalize_dt(...)`): a datetime object is always truthy, so only `None`
falls through. -/
def orOptInt (a b : Option Int) : Option Int :=
  match a with
  | none => b
  | some d => some d

/-! ## Timestamp normalization (`normalize_dt`, lines 49-72)

The heavy lifting (dateutil's permissive parser, `time.mktime`, the
timezone conversion to `Asia/Tehran`) is external-library code; it is
modelled by the parameters `dateParse` (string path) and `structParse`
(struct-time path), both returning the resolved instant or `none` on a
parse failure — the function's own contribution is the falsy early
return and the error-to-`None` recovery, which the `Option` plumbing
embeds. -/

/-- `normalize_dt` on the string branch (`isinstance(dt_val, str)`):
`if not dt_val: return None`, then parse (failure gives `None`). -/
def normalize_dt_str (dateParse : String → Option Int) (dv : Option String) : Option Int :=
  match dv with
  | none => none
  | some s => if s = "" then none else dateParse s

/-- `normalize_dt` on the `struct_time` branch: an empty tuple is
falsy, otherwise `time.mktime`-based conversion via the parameter. -/
def normalize_dt_struct (structParse : List Int → Option Int) (dv : Option (List Int)) : Option Int :=
  match dv with
  | none => none
  | some t => if t = [] then none else structParse t

/-- `hash_link` (lines 75-77): SHA-1 hex digest of `(link or "")`,
with the digest function kept abstract. -/
def hash_link (sha1hex : String → String) (link : String) : String :=
  sha1hex (orStr link "")

/-! ## Feed fetching (`fetch_feed_with_retry`, lines 80-108) -/

/-- One attempt body: the `requests.get` + `feedparser.parse(content)`
path, and on any exception from it, an immediate in-attempt fallback to
`feedparser.parse(url)`.  The attempt as a whole raises only when both
paths raise. -/
def attemptFetch (http fallback : Except String Feed) : Except String Feed :=
  match http with
  | .ok f => .ok f
  | .error _ => fallback

/-- The retry loop of `fetch_feed_with_retry`: `i` is the current
attempt index, the second `Nat` argument counts the attempts still
allowed (`maxRetries - i`).  The result pairs the returned feed
(`none` models the final `return None`) with the trace of backoff
sleeps `2 ** attempt`, taken only when `attempt < max_retries - 1`. -/
def fetchLoop (outcome : Nat → Except String Feed) (maxRetries : Nat) :
    Nat → Nat → Option Feed × List Nat
  | _, 0 => (none, [])
  | i, n + 1 =>
    match outcome i with
    | .ok f => (some f, [])
    | .error _ =>
      let rest := fetchLoop outcome maxRetries (i + 1) n
      if i < maxRetries - 1 then (rest.1, 2 ^ i :: rest.2) else rest

/-- `fetch_feed_with_retry(url, max_retries=3)`: the per-attempt HTTP
and fallback outcomes are supplied as functions of the attempt index. -/
def fetch_feed_with_retry (http fallback : Nat → Except String Feed)
    (maxRetries : Nat := 3) : Option Feed × List Nat :=
  fetchLoop (fun i => attemptFetch (http i) (fallback i)) maxRetries 0 maxRetries

/-! ## Entry extraction (`collect_items` per-entry body, lines 130-171) -/

/-- The `dt` resolution chain (lines 143-149): `published or updated`
through the string path, else `published_parsed or updated_parsed`
through the struct path, else the run's current instant. -/
def resolve_dt (dateParse : String → Option Int) (structParse : List Int → Option Int)
    (now_local : Int) (e : RawEntry) : Int :=
  (orOptInt (normalize_dt_str dateParse (orOptStr e.published e.updated))
            (normalize_dt_struct structParse (orOptStruct e.published_parsed e.updated_parsed))).getD
    now_local

/-- The per-entry body of `collect_items`: discard on missing link or
title, resolve the timestamp, discard items older than the cutoff, and
build the item dict (lines 163-170). -/
def processEntry (dateParse : String → Option Int) (structParse : List Int → Option Int)
    (sha1hex : String → String) (now_local cutoff : Int) (feedTitle : String)
    (e : RawEntry) : Option Item :=
  let link := e.link.getD ""
  let title := e.title.getD ""
  if link = "" ∨ title = "" then none
  else
    let summary := orStr (orStr (e.summary.getD "") (e.description.getD "")) ""
    let dt := resolve_dt dateParse structParse now_local e
    if dt < cutoff then none
    else some {
      id := hash_link sha1hex link
      title := safe_text title
      summary := render_summary summary
      link := link
      source := safe_text (orStr feedTitle "Unknown")
      published := dt }

/-! ## Aggregation (`collect_items`, lines 183-197) -/

/-- The dedup loop (lines 184-187): an insertion-ordered map keyed by
`link`, inserting only when the key is absent (`if item["link"] not in
unique_items`), so the FIRST occurrence of each link is kept.  `acc`
is `list(unique_items.values())` so far. -/
def dedupLoop : List Item → List Item → List Item
  | acc, [] => acc
  | acc, it :: rest =>
    if acc.any (fun j => j.link == it.link) then dedupLoop acc rest
    else dedupLoop (acc ++ [it]) rest

def dedupByLink (l : List Item) : List Item := dedupLoop [] l

/-- `items.sort(key=lambda x: x["published"], reverse=True)` (line
193): a stable sort, descending by `published`.  `List.mergeSort` with
this total comparison is stable descending, matching CPython's stable
`list.sort` with `reverse=True`. -/
def sortItems (l : List Item) : List Item :=
  l.mergeSort (fun a b => decide (b.published ≤ a.published))

/-- The post-collection aggregation (lines 183-197): dedup by link,
sort descending by `published`, truncate to `MAX_ITEMS_PER_DAY`. -/
def aggregate_items (items : List Item) : List Item :=
  (sortItems (dedupByLink items)).take MAX_ITEMS_PER_DAY

/-- The recency test applied per entry (line 152, `if dt < cutoff:
continue`) expressed on finished items, plus the rest of the
aggregation stage: the full item-level pipeline of the claim texts. -/
def aggregate (cutoff : Int) (items : List Item) : List Item :=
  aggregate_items (items.filter (fun it => !decide (it.published < cutoff)))

/-- `collect_items`: every feed's fetched result (already `None` for a
feed whose retries were exhausted) contributes its processed entries,
in feed order; then the aggregation stage runs (lines 111-197). -/
def collect_items (dateParse : String → Option Int) (structParse : List Int → Option Int)
    (sha1hex : String → String) (now_local : Int) (feeds : List (Option Feed)) : List Item :=
  let cutoff := now_local - RECENT_HOURS * 3600
  let items := feeds.flatMap (fun fp? =>
    match fp? with
    | none => []
    | some fp => fp.entries.filterMap
        (processEntry dateParse structParse sha1hex now_local cutoff (fp.ftitle.getD "")))
  aggregate_items items

/-! ## Concrete fixtures

Concrete parsers, feeds, entries and items used to instantiate the
general theorems at specific inputs. -/

/-- A date parser that never recovers a date. -/
def dp0 : String → Option Int := fun _ => none

/-- A struct-time parser that never recovers a date. -/
def sp0 : List Int → Option Int := fun _ => none

/-- A digest function instance (the pipeline never inspects digests). -/
def sh0 : String → String := fun s => s

/-- A date parser resolving every date string to the instant exactly
24 hours before run-start `0`. -/
def dpCut : String → Option Int := fun _ => some (-86400)

/-- A date parser resolving every date string to an instant strictly
older than the 24-hour cutoff before run-start `0`. -/
def dpOld : String → Option Int := fun _ => some (-100000)

def feedOk : Feed := {}

def httpFail : Nat → Except String Feed := fun _ => Except.error "net down"

def fbThird : Nat → Except String Feed :=
  fun i => if i = 2 then Except.ok feedOk else Except.error "net down"

def fbFail : Nat → Except String Feed := fun _ => Except.error "net down"

def itemP : Item :=
  { id := "1", title := "first", summary := "", link := "x", source := "s", published := 0 }

def itemQ : Item :=
  { id := "2", title := "second", summary := "", link := "x", source := "s", published := 5 }

def itemR : Item :=
  { id := "3", title := "third", summary := "", link := "y", source := "s", published := 5 }

/-- 81 items with pairwise-distinct links. -/
def manyItems : List Item :=
  (List.range 81).map (fun i =>
    { id := "", title := "t", summary := "", link := String.mk [Char.ofNat (48 + i)],
      source := "", published := (i : Int) })

def entryCut : RawEntry := { link := some "x", title := some "t", published := some "date" }

def entryNoLink : RawEntry := { title := some "t" }

def entryWsTitle : RawEntry := { link := some "x", title := some " " }

def entryGood : RawEntry := { link := some "x", title := some "t" }

def feedsG : List (Option Feed) := [some { ftitle := some "F", entries := [entryGood] }]

def feedsW : List (Option Feed) := [some { ftitle := some "F", entries := [entryWsTitle] }]

/-- What `collect_items` produces from `feedsG` at run-start 0. -/
def itemG : Item :=
  { id := "x", title := "t", summary := "", link := "x", source := "F", published := 0 }

/-- What `collect_items` produces from `feedsW` at run-start 0: note
the empty sanitized title. -/
def itemW : Item :=
  { id := "x", title := "", summary := "", link := "x", source := "F", published := 0 }

/-- 500 plain characters. -/
def aString : String := String.mk (List.replicate 500 'a')

/-! ## Lemmas about the dedup loop -/

theorem dedupLoop_mem {x : Item} : ∀ {l acc : List Item}, x ∈ dedupLoop acc l → x ∈ acc ∨ x ∈ l := by
  intro l
  induction l with
  | nil => intro acc h; simp only [dedupLoop] at h; exact Or.inl h
  | cons it rest ih =>
    intro acc h
    cases hmem : acc.any (fun j => j.link == it.link) with
    | true =>
      rw [dedupLoop, if_pos hmem] at h
      rcases ih h with h' | h'
      · exact Or.inl h'
      · exact Or.inr (List.mem_cons_of_mem _ h')
    | false =>
      rw [dedupLoop, if_neg (by simp [hmem])] at h
      rcases ih h with h' | h'
      · rcases List.mem_append.mp h' with h'' | h''
        · exact Or.inl h''
        · exact Or.inr (by simp at h''; simp [h''])
      · exact Or.inr (List.mem_cons_of_mem _ h')

theorem dedupLoop_sublist : ∀ (l acc : List Item),
    ∃ l', dedupLoop acc l = acc ++ l' ∧ List.Sublist l' l := by
  intro l
  induction l with
  | nil => intro acc; exact ⟨[], by simp [dedupLoop], List.nil_sublist _⟩
  | cons it rest ih =>
    intro acc
    cases hmem : acc.any (fun j => j.link == it.link) with
    | true =>
      obtain ⟨l', hEq, hSub⟩ := ih acc
      exact ⟨l', by rw [dedupLoop, if_pos hmem, hEq], hSub.cons it⟩
    | false =>
      obtain ⟨l', hEq, hSub⟩ := ih (acc ++ [it])
      refine ⟨it :: l', ?_, hSub.cons₂ it⟩
      rw [dedupLoop, if_neg (by simp [hmem]), hEq]
      simp

theorem dedupLoop_nodup : ∀ (l acc : List Item),
    (acc.map (fun it => it.link)).Nodup →
    ((dedupLoop acc l).map (fun it => it.link)).Nodup := by
  intro l
  induction l with
  | nil => intro acc h; simpa [dedupLoop] using h
  | cons it rest ih =>
    intro acc h
    cases hmem : acc.any (fun j => j.link == it.link) with
    | true =>
      rw [dedupLoop, if_pos hmem]
      exact ih acc h
    | false =>
      rw [dedupLoop, if_neg (by simp [hmem])]
      refine ih _ ?_
      have hnot : it.link ∉ acc.map (fun j => j.link) := by
        intro hin
        rcases List.mem_map.mp hin with ⟨j, hj, hje⟩
        have : acc.any (fun j => j.link == it.link) = true :=
          List.any_eq_true.mpr ⟨j, hj, by simp [hje]⟩
        simp [hmem] at this
      simpa [List.nodup_append] using And.intro h hnot

theorem dedupLoop_eq_append : ∀ (l acc : List Item),
    ((acc ++ l).map (fun it => it.link)).Nodup → dedupLoop acc l = acc ++ l := by
  intro l
  induction l with
  | nil => intro acc _; simp [dedupLoop]
  | cons it rest ih =>
    intro acc h
    have h' := h
    rw [List.map_append, List.nodup_append] at h'
    have hnot : acc.any (fun j => j.link == it.link) = false := by
      rw [List.any_eq_false]
      intro j hj
      simp only [beq_iff_eq]
      intro hje
      exact h'.2.2 (List.mem_map.mpr ⟨j, hj, rfl⟩) (by simp [hje])
    rw [dedupLoop, if_neg (by simp [hnot])]
    have := ih (acc ++ [it]) (by simpa using h)
    simpa using this

theorem dedupLoop_filter (k : String) : ∀ (l acc : List Item),
    (dedupLoop acc l).filter (fun it => it.link == k) =
      acc.filter (fun it => it.link == k) ++
        (if acc.any (fun it => it.link == k) then []
         else (l.find? (fun it => it.link == k)).toList) := by
  intro l
  induction l with
  | nil =>
    intro acc
    rw [dedupLoop]
    by_cases hacc : acc.any (fun it => it.link == k) <;> simp [hacc]
  | cons it rest ih =>
    intro acc
    cases hmem : acc.any (fun j => j.link == it.link) with
    | true =>
      rw [dedupLoop, if_pos hmem, ih acc]
      by_cases hk : it.link = k
      · have hacc : acc.any (fun j => j.link == k) = true := by
          subst hk; exact hmem
        simp [hacc]
      · have hfind : (List.find? (fun it => it.link == k) (it :: rest)) =
            List.find? (fun it => it.link == k) rest := by
          rw [List.find?_cons_of_neg]; simp [hk]
        simp [hfind]
    | false =>
      rw [dedupLoop, if_neg (by simp [hmem]), ih (acc ++ [it])]
      by_cases hk : it.link = k
      · have hacc : acc.any (fun j => j.link == k) = false := by
          subst hk; exact hmem
        have hfind : (List.find? (fun it => it.link == k) (it :: rest)) = some it := by
          rw [List.find?_cons_of_pos]; simp [hk]
        simp [List.filter_append, hacc, hk, hfind]
      · have hfind : (List.find? (fun it => it.link == k) (it :: rest)) =
            List.find? (fun it => it.link == k) rest := by
          rw [List.find?_cons_of_neg]; simp [hk]
        by_cases hacc : acc.any (fun it => it.link == k) <;>
          simp [List.filter_append, hk, hfind, hacc]

/-! ## Lemmas about the sort stage -/

theorem itemLE_trans : ∀ a b c : Item,
    decide (b.published ≤ a.published) → decide (c.published ≤ b.published) →
    decide (c.published ≤ a.published) := by
  intro a b c hab hbc
  simp only [decide_eq_true_eq] at *
  omega

theorem itemLE_total : ∀ a b : Item,
    decide (b.published ≤ a.published) || decide (a.published ≤ b.published) := by
  intro a b
  simp only [Bool.or_eq_true, decide_eq_true_eq]
  omega

theorem sortItems_perm (l : List Item) : List.Perm (sortItems l) l :=
  List.mergeSort_perm l _

theorem sortItems_sorted (l : List Item) :
    (sortItems l).Pairwise (fun a b => b.published ≤ a.published) := by
  have h := List.sorted_mergeSort itemLE_trans itemLE_total l
  exact h.imp (by intro a b hab; simpa using hab)

theorem sortItems_of_sorted {l : List Item}
    (h : l.Pairwise (fun a b => b.published ≤ a.published)) : sortItems l = l :=
  List.mergeSort_of_sorted (h.imp (by intro a b hab; simpa using hab))

/-- Stability of the sort stage, per `published` value: the sublist of
items carrying any one `published` value is untouched by the sort. -/
theorem sortItems_filter_tied (l : List Item) (v : Int) :
    (sortItems l).filter (fun it => it.published == v) =
      l.filter (fun it => it.published == v) := by
  have hsub : List.Sublist (l.filter (fun it => it.published == v)) l :=
    List.filter_sublist l
  have hpw : (l.filter (fun it => it.published == v)).Pairwise
      (fun a b => decide (b.published ≤ a.published) = true) := by
    refine List.pairwise_of_forall_mem_list ?_
    intro a ha b hb
    have ha' := List.of_mem_filter ha
    have hb' := List.of_mem_filter hb
    simp only [beq_iff_eq] at ha' hb'
    simp [ha', hb']
  have hstable := List.sublist_mergeSort itemLE_trans itemLE_total hpw hsub
  have hsub2 : List.Sublist
      ((l.filter (fun it => it.published == v)).filter (fun it => it.published == v))
      ((sortItems l).filter (fun it => it.published == v)) :=
    hstable.filter _
  rw [List.filter_filter] at hsub2
  simp only [Bool.and_self] at hsub2
  have hperm : List.Perm ((sortItems l).filter (fun it => it.published == v))
      (l.filter (fun it => it.published == v)) :=
    (sortItems_perm l).filter _
  exact ((hsub2.eq_of_length hperm.length_eq.symm)).symm

/-! ## Lemmas about text processing on plain characters -/

theorem stripTagsGo_of_no_lt : ∀ (fuel : Nat) (l : List Char), l.length ≤ fuel →
    (∀ c ∈ l, (c == Char.ofNat 60) = false) → stripTagsGo fuel l = l := by
  intro fuel
  induction fuel with
  | zero =>
    intro l hlen _
    have : l = [] := List.eq_nil_of_length_eq_zero (Nat.le_zero.mp hlen)
    subst this; rfl
  | succ n ih =>
    intro l hlen hno
    cases l with
    | nil => rfl
    | cons c cs =>
      have hc : (c == Char.ofNat 60) = false := hno c (by simp)
      rw [stripTagsGo, if_neg (by simp [hc])]
      rw [ih cs (by simpa using Nat.le_of_succ_le_succ hlen)
        (fun d hd => hno d (List.mem_cons_of_mem _ hd))]

theorem collapseWsGo_of_no_space : ∀ (fuel : Nat) (l : List Char), l.length ≤ fuel →
    (∀ c ∈ l, isSpaceCh c = false) → collapseWsGo fuel l = l := by
  intro fuel
  induction fuel with
  | zero =>
    intro l hlen _
    have : l = [] := List.eq_nil_of_length_eq_zero (Nat.le_zero.mp hlen)
    subst this; rfl
  | succ n ih =>
    intro l hlen hno
    cases l with
    | nil => rfl
    | cons c cs =>
      have hc : isSpaceCh c = false := hno c (by simp)
      rw [collapseWsGo, if_neg (by simp [hc])]
      rw [ih cs (by simpa using Nat.le_of_succ_le_succ hlen)
        (fun d hd => hno d (List.mem_cons_of_mem _ hd))]

theorem dropWhile_of_no_space {l : List Char}
    (hno : ∀ c ∈ l, isSpaceCh c = false) : l.dropWhile isSpaceCh = l := by
  cases l with
  | nil => rfl
  | cons c cs =>
    rw [List.dropWhile_cons_of_neg]
    simp [hno c (by simp)]

theorem stripEndsL_of_no_space {l : List Char}
    (hno : ∀ c ∈ l, isSpaceCh c = false) : stripEndsL l = l := by
  unfold stripEndsL
  rw [dropWhile_of_no_space hno,
    dropWhile_of_no_space (fun c hc => hno c (List.mem_reverse.mp hc)), List.reverse_reverse]

theorem cleanWsL_of_no_space {l : List Char}
    (hno : ∀ c ∈ l, isSpaceCh c = false) : cleanWsL l = l := by
  unfold cleanWsL collapseWsL
  rw [collapseWsGo_of_no_space l.length l (Nat.le_refl _) hno, stripEndsL_of_no_space hno]

theorem htmlEscapeL_of_plain : ∀ {l : List Char},
    (∀ c ∈ l, escapeChar c = [c]) → htmlEscapeL l = l := by
  intro l
  induction l with
  | nil => intro _; rfl
  | cons c cs ih =>
    intro h
    have hc := h c (by simp)
    unfold htmlEscapeL at *
    rw [List.flatMap_cons, hc, ih (fun d hd => h d (List.mem_cons_of_mem _ hd))]
    rfl

theorem isPlainCh_no_space {c : Char} (h : isPlainCh c = true) : isSpaceCh c = false := by
  unfold isPlainCh at h
  simp only [Bool.and_eq_true, Bool.not_eq_true'] at h
  exact h.1.1.1

theorem isPlainCh_escape {c : Char} (h : isPlainCh c = true) : escapeChar c = [c] := by
  unfold isPlainCh at h
  simp only [Bool.and_eq_true, Bool.not_eq_true'] at h
  unfold escapeChar
  rw [if_neg (by simp [h.1.1.2]), if_neg (by simp [h.1.2]), if_neg (by simp [h.2])]

theorem isPlainCh_no_lt {c : Char} (h : isPlainCh c = true) : (c == Char.ofNat 60) = false := by
  unfold isPlainCh at h
  simp only [Bool.and_eq_true, Bool.not_eq_true'] at h
  exact h.1.2

/-- On a list of plain characters terminated by dots (the shape the
truncation produces), `safe_text` is the identity. -/
theorem safe_text_id {l : List Char}
    (hs : ∀ c ∈ l, isSpaceCh c = false) (he : ∀ c ∈ l, escapeChar c = [c]) :
    safe_text ⟨l⟩ = ⟨l⟩ := by
  unfold safe_text
  rw [show (String.mk l).data = l from rfl, htmlEscapeL_of_plain he, cleanWsL_of_no_space hs]

/-! ## Lemmas about the aggregation stage -/

theorem aggregate_items_mem {x : Item} {items : List Item}
    (h : x ∈ aggregate_items items) : x ∈ items := by
  unfold aggregate_items at h
  have h1 : x ∈ sortItems (dedupByLink items) := List.mem_of_mem_take h
  have h2 : x ∈ dedupByLink items := (sortItems_perm _).mem_iff.mp h1
  rcases dedupLoop_mem h2 with h3 | h3
  · simp at h3
  · exact h3

theorem aggregate_items_nodup (items : List Item) :
    ((aggregate_items items).map (fun it => it.link)).Nodup := by
  unfold aggregate_items
  have h1 : ((dedupByLink items).map (fun it => it.link)).Nodup :=
    dedupLoop_nodup items [] (by simp)
  have h2 : ((sortItems (dedupByLink items)).map (fun it => it.link)).Nodup :=
    (((sortItems_perm _).map _).nodup_iff).mpr h1
  exact h2.sublist ((List.take_sublist _ _).map _)

theorem aggregate_items_sorted (items : List Item) :
    (aggregate_items items).Pairwise (fun a b => b.published ≤ a.published) :=
  (sortItems_sorted (dedupByLink items)).sublist (List.take_sublist _ _)

theorem aggregate_items_length_le (items : List Item) :
    (aggregate_items items).length ≤ MAX_ITEMS_PER_DAY := by
  unfold aggregate_items
  rw [List.length_take]
  exact Nat.min_le_left _ _

/-- On a list whose links are already pairwise distinct, the dedup pass
is the identity. -/
theorem dedupByLink_of_nodup {items : List Item}
    (h : (items.map (fun it => it.link)).Nodup) : dedupByLink items = items := by
  unfold dedupByLink
  have := dedupLoop_eq_append items [] (by simpa using h)
  simpa using this

/-- An already deduplicated, sorted, short-enough list passes the whole
aggregation stage unchanged. -/
theorem aggregate_items_of_invariants {items : List Item}
    (hnd : (items.map (fun it => it.link)).Nodup)
    (hsorted : items.Pairwise (fun a b => b.published ≤ a.published))
    (hlen : items.length ≤ MAX_ITEMS_PER_DAY) : aggregate_items items = items := by
  unfold aggregate_items
  rw [dedupByLink_of_nodup hnd, sortItems_of_sorted hsorted, List.take_of_length_le hlen]

/-! ## Lemmas about entry processing -/

theorem processEntry_some {dateParse : String → Option Int}
    {structParse : List Int → Option Int} {sha1hex : String → String}
    {now_local cutoff : Int} {ft : String} {e : RawEntry} {it : Item}
    (h : processEntry dateParse structParse sha1hex now_local cutoff ft e = some it) :
    it.link = e.link.getD "" ∧ e.link.getD "" ≠ "" ∧ e.title.getD "" ≠ "" ∧
    it.published = resolve_dt dateParse structParse now_local e ∧
    ¬ it.published < cutoff := by
  unfold processEntry at h
  by_cases hcond : e.link.getD "" = "" ∨ e.title.getD "" = ""
  · rw [if_pos hcond] at h
    exact absurd h (by simp)
  · rw [if_neg hcond] at h
    push_neg at hcond
    by_cases hdt : resolve_dt dateParse structParse now_local e < cutoff
    · rw [if_pos hdt] at h
      exact absurd h (by simp)
    · rw [if_neg hdt] at h
      have h' := Option.some.inj h
      refine ⟨?_, hcond.1, hcond.2, ?_, ?_⟩
      · rw [← h']
      · rw [← h']
      · rw [← h']; exact hdt

theorem processEntry_none {dateParse : String → Option Int}
    {structParse : List Int → Option Int} {sha1hex : String → String}
    {now_local cutoff : Int} {ft : String} {e : RawEntry}
    (h : e.link.getD "" = "" ∨ e.title.getD "" = "") :
    processEntry dateParse structParse sha1hex now_local cutoff ft e = none := by
  unfold processEntry
  rw [if_pos h]

/-! ## Concrete evaluations of `collect_items` -/

theorem collect_feedsG : collect_items dp0 sp0 sh0 0 feedsG = [itemG] := by
  have h1 : collect_items dp0 sp0 sh0 0 feedsG = (sortItems [itemG]).take MAX_ITEMS_PER_DAY := rfl
  rw [h1]
  have h2 : sortItems [itemG] = [itemG] := by
    unfold sortItems
    exact List.mergeSort_singleton itemG
  rw [h2]
  rfl

theorem collect_feedsW : collect_items dp0 sp0 sh0 0 feedsW = [itemW] := by
  have h1 : collect_items dp0 sp0 sh0 0 feedsW = (sortItems [itemW]).take MAX_ITEMS_PER_DAY := rfl
  rw [h1]
  have h2 : sortItems [itemW] = [itemW] := by
    unfold sortItems
    exact List.mergeSort_singleton itemW
  rw [h2]
  rfl

/-! ## The claims -/

/-- C1 (counterexample): deduplication is NOT "last wins".  Two items
share the link `"x"`; the survivor is `itemP`, the one occurring FIRST
in processing order, and the later `itemQ` does not survive. -/
theorem claim_C1_counterexample :
    dedupByLink [itemP, itemQ] = [itemP] ∧ itemP.link = itemQ.link ∧ itemP ≠ itemQ ∧
    itemQ ∉ dedupByLink [itemP, itemQ] := by decide

/-- C1 (amended): when the collected items contain items with the same
link, exactly one survives deduplication, namely the FIRST one in
processing order: the items with link `k` surviving `dedupByLink` are
exactly the first occurrence of `k` (the dict inserts only when the key
is absent, so later occurrences are ignored, "first wins"). -/
theorem claim_C1_first_wins : ∀ (l : List Item) (k : String),
    (dedupByLink l).filter (fun it => it.link == k) =
      (l.find? (fun it => it.link == k)).toList := by
  intro l k
  unfold dedupByLink
  rw [dedupLoop_filter k l []]
  simp

/-- C2 (counterexample): the sanitization pipeline does not map the
input summary to the claimed output: the ampersand of the already
escaped entity is escaped again. -/
theorem claim_C2_counterexample :
    render_summary "<b>Breaking</b>   news &amp; more" ≠ "Breaking news &amp; more" := by
  decide

/-- C2 (amended): on the input summary the pipeline strips the tags and
collapses the whitespace, but double-escapes the pre-escaped ampersand
entity, yielding exactly "Breaking news &amp;amp; more"; the output
contains no angle-bracket characters. -/
theorem claim_C2_sanitization :
    render_summary "<b>Breaking</b>   news &amp; more" = "Breaking news &amp;amp; more" ∧
    ("Breaking news &amp;amp; more".data.all
      (fun c => !(c == Char.ofNat 60) && !(c == Char.ofNat 62))) = true := by
  decide

/-- C3: the fetcher tries up to 3 attempts with exponential backoff
sleeps (1s then 2s) between attempts; an attempt that fails is one
whose HTTP path and in-attempt fallback both raise.  If the first two
attempts fail and the third succeeds, the successful parsed feed is
returned; if all three fail, no result is returned. -/
theorem claim_C3_retry : ∀ (http fallback : Nat → Except String Feed) (f : Feed)
    (e0 e1 e2 : String),
    (attemptFetch (http 0) (fallback 0) = Except.error e0 →
     attemptFetch (http 1) (fallback 1) = Except.error e1 →
     attemptFetch (http 2) (fallback 2) = Except.ok f →
     fetch_feed_with_retry http fallback = (some f, [1, 2]))
    ∧ (attemptFetch (http 0) (fallback 0) = Except.error e0 →
       attemptFetch (http 1) (fallback 1) = Except.error e1 →
       attemptFetch (http 2) (fallback 2) = Except.error e2 →
       fetch_feed_with_retry http fallback = (none, [1, 2])) := by
  intro http fallback f e0 e1 e2
  constructor
  · intro h0 h1 h2
    unfold fetch_feed_with_retry
    rw [fetchLoop, h0]
    rw [fetchLoop, h1]
    rw [fetchLoop, h2]
    norm_num
  · intro h0 h1 h2
    unfold fetch_feed_with_retry
    rw [fetchLoop, h0]
    rw [fetchLoop, h1]
    rw [fetchLoop, h2]
    rw [fetchLoop]
    norm_num

/-- C3 (witness): concrete attempt outcomes, failing twice then
succeeding, and failing three times. -/
theorem claim_C3_witness :
    fetch_feed_with_retry httpFail fbThird = (some feedOk, [1, 2]) ∧
    fetch_feed_with_retry httpFail fbFail = (none, [1, 2]) :=
  ⟨(claim_C3_retry httpFail fbThird feedOk "net down" "net down" "net down").1 rfl rfl rfl,
   (claim_C3_retry httpFail fbFail feedOk "net down" "net down" "net down").2 rfl rfl rfl⟩

/-- C4 (counterexample): a collection of 81 items (more than
`MAX_ITEMS_PER_DAY = 80`) all sharing one link aggregates to a single
item, not to exactly 80: deduplication can shrink an oversized input
below the cap. -/
theorem claim_C4_counterexample :
    MAX_ITEMS_PER_DAY < (List.replicate 81 itemP).length ∧
    (aggregate_items (List.replicate 81 itemP)).length = 1 := by
  constructor
  · decide
  · have h1 : dedupByLink (List.replicate 81 itemP) = [itemP] := by decide
    unfold aggregate_items
    rw [h1]
    have h2 : sortItems [itemP] = [itemP] := by
      unfold sortItems
      exact List.mergeSort_singleton itemP
    rw [h2]
    rfl

/-- C4 (amended): the aggregation output never exceeds
`MAX_ITEMS_PER_DAY` items; and when the collected items have
pairwise-distinct links and number more than `MAX_ITEMS_PER_DAY`, the
output length is exactly `MAX_ITEMS_PER_DAY`. -/
theorem claim_C4_bounded : ∀ items : List Item,
    (aggregate_items items).length ≤ MAX_ITEMS_PER_DAY ∧
    ((items.map (fun it => it.link)).Nodup → MAX_ITEMS_PER_DAY < items.length →
      (aggregate_items items).length = MAX_ITEMS_PER_DAY) := by
  intro items
  refine ⟨aggregate_items_length_le items, ?_⟩
  intro hnd hlen
  unfold aggregate_items
  rw [dedupByLink_of_nodup hnd]
  unfold sortItems
  rw [List.length_take, List.length_mergeSort]
  omega

/-- C4 (witness): 81 items with pairwise-distinct links aggregate to
exactly 80. -/
theorem claim_C4_witness : (aggregate_items manyItems).length = MAX_ITEMS_PER_DAY :=
  (claim_C4_bounded manyItems).2 (by decide) (by decide)

/-- C5: with run-start `now` and cutoff `now - RECENT_HOURS` hours, an
entry (with link and title present) whose resolved published instant is
EXACTLY the cutoff is retained, with that instant as its `published`;
one resolving STRICTLY earlier is dropped (`if dt < cutoff: continue`). -/
theorem claim_C5_recency_boundary : ∀ (dateParse : String → Option Int)
    (structParse : List Int → Option Int) (sha1hex : String → String)
    (now : Int) (ft : String) (e : RawEntry),
    e.link.getD "" ≠ "" → e.title.getD "" ≠ "" →
    (resolve_dt dateParse structParse now e = now - RECENT_HOURS * 3600 →
      ∃ it, processEntry dateParse structParse sha1hex now (now - RECENT_HOURS * 3600) ft e
          = some it ∧ it.published = now - RECENT_HOURS * 3600)
    ∧ (resolve_dt dateParse structParse now e < now - RECENT_HOURS * 3600 →
      processEntry dateParse structParse sha1hex now (now - RECENT_HOURS * 3600) ft e = none) := by
  intro dateParse structParse sha1hex now ft e h1 h2
  constructor
  · intro hdt
    refine ⟨{ id := hash_link sha1hex (e.link.getD "")
              title := safe_text (e.title.getD "")
              summary := render_summary (orStr (orStr (e.summary.getD "") (e.description.getD "")) "")
              link := e.link.getD ""
              source := safe_text (orStr ft "Unknown")
              published := resolve_dt dateParse structParse now e }, ?_, hdt⟩
    unfold processEntry
    rw [if_neg (by push_neg; exact ⟨h1, h2⟩)]
    rw [if_neg (by rw [hdt]; omega)]
  · intro hdt
    unfold processEntry
    rw [if_neg (by push_neg; exact ⟨h1, h2⟩)]
    rw [if_pos hdt]

/-- C5 (witness): with run-start 0, an entry resolving to exactly
-86400 (= 0 - 24h) is kept with that instant; one resolving to -100000
is dropped. -/
theorem claim_C5_witness :
    (∃ it, processEntry dpCut sp0 sh0 0 (0 - RECENT_HOURS * 3600) "F" entryCut = some it ∧
      it.published = 0 - RECENT_HOURS * 3600) ∧
    processEntry dpOld sp0 sh0 0 (0 - RECENT_HOURS * 3600) "F" entryCut = none :=
  ⟨(claim_C5_recency_boundary dpCut sp0 sh0 0 "F" entryCut (by decide) (by decide)).1 (by decide),
   (claim_C5_recency_boundary dpOld sp0 sh0 0 "F" entryCut (by decide) (by decide)).2 (by decide)⟩

/-- C6: a cleaned summary of 500 plain characters (no markup, no
whitespace, no escapable characters) renders as exactly 303 characters,
the first 300 followed by the three-dot ellipsis marker; a summary of
300 or fewer cleaned characters passes the truncation step unchanged,
with no marker appended. -/
theorem claim_C6_truncation :
    (∀ s : String, (∀ c ∈ s.data, isPlainCh c = true) → s.data.length = 500 →
      (render_summary s).data.length = 303 ∧
      (render_summary s).data.drop 300 = ['.', '.', '.'])
    ∧ (∀ l : List Char, l.length ≤ 300 → truncateL l = l) := by
  constructor
  · intro s hplain hlen
    have hnolt : ∀ c ∈ s.data, (c == Char.ofNat 60) = false :=
      fun c hc => isPlainCh_no_lt (hplain c hc)
    have hns : ∀ c ∈ s.data, isSpaceCh c = false :=
      fun c hc => isPlainCh_no_space (hplain c hc)
    have h1 : stripTagsL s.data = s.data :=
      stripTagsGo_of_no_lt s.data.length s.data (Nat.le_refl _) hnolt
    have h2 : cleanWsL s.data = s.data := cleanWsL_of_no_space hns
    have h3 : truncateL s.data = s.data.take 300 ++ ['.', '.', '.'] := by
      unfold truncateL
      rw [if_pos (by omega)]
    have hclean : clean_summary s = ⟨s.data.take 300 ++ ['.', '.', '.']⟩ := by
      unfold clean_summary
      rw [h1, h2, h3]
    have hmemdots : ∀ c ∈ s.data.take 300 ++ ['.', '.', '.'],
        isSpaceCh c = false ∧ escapeChar c = [c] := by
      intro c hc
      rcases List.mem_append.mp hc with hc' | hc'
      · have hcs : c ∈ s.data := List.take_subset _ _ hc'
        exact ⟨hns c hcs, isPlainCh_escape (hplain c hcs)⟩
      · have : c = '.' := by simpa using hc'
        subst this
        exact ⟨by decide, by decide⟩
    have hrender : render_summary s = ⟨s.data.take 300 ++ ['.', '.', '.']⟩ := by
      unfold render_summary
      rw [hclean]
      exact safe_text_id (fun c hc => (hmemdots c hc).1) (fun c hc => (hmemdots c hc).2)
    have htake : (s.data.take 300).length = 300 := by
      rw [List.length_take]
      omega
    constructor
    · rw [hrender]
      show (s.data.take 300 ++ ['.', '.', '.']).length = 303
      rw [List.length_append, htake]
      rfl
    · rw [hrender]
      show (s.data.take 300 ++ ['.', '.', '.']).drop 300 = ['.', '.', '.']
      exact List.drop_left' htake
  · intro l h
    unfold truncateL
    rw [if_neg (by omega)]

set_option maxRecDepth 4000 in
/-- C6 (witness): 500 letters render to 303 characters ending in the
marker. -/
theorem claim_C6_witness :
    (render_summary aString).data.length = 303 ∧
    (render_summary aString).data.drop 300 = ['.', '.', '.'] :=
  claim_C6_truncation.1 aString (by decide) (by decide)

/-- C7: (a) when the collected items have pairwise-distinct `published`
instants, the aggregation output is sorted strictly descending by
`published`; (b) the sort stage is stable with no secondary key: for
every `published` value, the items carrying it keep exactly their
relative input order (the sublist with that key is unchanged). -/
theorem claim_C7_ordering : ∀ l : List Item,
    ((l.map (fun it => it.published)).Nodup →
      (aggregate_items l).Pairwise (fun a b => b.published < a.published))
    ∧ (∀ v : Int, (sortItems l).filter (fun it => it.published == v) =
        l.filter (fun it => it.published == v)) := by
  intro l
  constructor
  · intro hnd
    obtain ⟨l', hEq, hSub⟩ := dedupLoop_sublist l []
    have hD : dedupByLink l = l' := by
      unfold dedupByLink
      rw [hEq]
      simp
    have hndD : ((dedupByLink l).map (fun it => it.published)).Nodup := by
      rw [hD]
      exact hnd.sublist (hSub.map _)
    have hndS : ((sortItems (dedupByLink l)).map (fun it => it.published)).Nodup :=
      (((sortItems_perm _).map _).nodup_iff).mpr hndD
    have hne : (sortItems (dedupByLink l)).Pairwise
        (fun a b => a.published ≠ b.published) := by
      rw [List.Nodup, List.pairwise_map] at hndS
      exact hndS
    have hsorted := sortItems_sorted (dedupByLink l)
    have hstrict : (sortItems (dedupByLink l)).Pairwise
        (fun a b => b.published < a.published) :=
      (hsorted.and hne).imp (fun h => lt_of_le_of_ne h.1 (Ne.symm h.2))
    exact hstrict.sublist (List.take_sublist _ _)
  · exact sortItems_filter_tied l

/-- C7 (witness): two items with distinct `published` aggregate to a
strictly descending list. -/
theorem claim_C7_witness :
    (aggregate_items [itemP, itemR]).Pairwise (fun a b => b.published < a.published) :=
  (claim_C7_ordering [itemP, itemR]).1 (by decide)

/-- C8 (counterexample): the invariant "every output item has a
non-empty title" fails: an entry whose raw title is a single space
passes the truthiness check (`if not link or not title`) but its
sanitized title collapses to the empty string, and the item reaches the
final output with an empty title. -/
theorem claim_C8_counterexample :
    (collect_items dp0 sp0 sh0 0 feedsW).map (fun it => it.title) = [""] := by
  rw [collect_feedsW]
  rfl

/-- C8 (amended): an entry with an empty or absent link, or an empty or
absent title, produces no normalized item; every item in the final
output has a non-empty link, and no two output items share the same
link.  (The sanitized TITLE, however, can be empty when the raw title
is non-empty but all-whitespace.) -/
theorem claim_C8_invariants : ∀ (dateParse : String → Option Int)
    (structParse : List Int → Option Int) (sha1hex : String → String)
    (now cutoff : Int) (ft : String) (e : RawEntry) (feeds : List (Option Feed)),
    (e.link.getD "" = "" ∨ e.title.getD "" = "" →
      processEntry dateParse structParse sha1hex now cutoff ft e = none)
    ∧ (∀ it ∈ collect_items dateParse structParse sha1hex now feeds, it.link ≠ "")
    ∧ ((collect_items dateParse structParse sha1hex now feeds).map (fun it => it.link)).Nodup := by
  intro dp sp sh now cutoff ft e feeds
  refine ⟨processEntry_none, ?_, ?_⟩
  · intro it hit
    simp only [collect_items] at hit
    have hit' := aggregate_items_mem hit
    rw [List.mem_flatMap] at hit'
    obtain ⟨fp?, hfp, hmem⟩ := hit'
    cases fp? with
    | none => simp at hmem
    | some fp =>
      rw [List.mem_filterMap] at hmem
      obtain ⟨e', he', hpe⟩ := hmem
      have h := processEntry_some hpe
      rw [h.1]
      exact h.2.1
  · simp only [collect_items]
    exact aggregate_items_nodup _

/-- C8 (witness): an entry with no link yields no item; the concrete
output item of `feedsG` has a non-empty link. -/
theorem claim_C8_witness :
    processEntry dp0 sp0 sh0 0 (-86400) "F" entryNoLink = none ∧ itemG.link ≠ "" :=
  ⟨(claim_C8_invariants dp0 sp0 sh0 0 (-86400) "F" entryNoLink feedsG).1 (Or.inl rfl),
   (claim_C8_invariants dp0 sp0 sh0 0 (-86400) "F" entryNoLink feedsG).2.1 itemG
     (by rw [collect_feedsG]; exact List.mem_singleton.mpr rfl)⟩

/-- C9: the aggregation stage (recency filter with a fixed run-start
cutoff, dedup by link, stable descending sort by `published`,
truncation to `MAX_ITEMS_PER_DAY`) is idempotent: reapplying it to its
own output returns that output unchanged. -/
theorem claim_C9_idempotent : ∀ (cutoff : Int) (items : List Item),
    aggregate cutoff (aggregate cutoff items) = aggregate cutoff items := by
  intro cutoff items
  unfold aggregate
  have hmem : ∀ x ∈ aggregate_items (items.filter (fun it => !decide (it.published < cutoff))),
      (!decide (x.published < cutoff)) = true := by
    intro x hx
    exact (List.mem_filter.mp (aggregate_items_mem hx)).2
  rw [List.filter_eq_self.mpr hmem]
  exact aggregate_items_of_invariants (aggregate_items_nodup _) (aggregate_items_sorted _)
    (aggregate_items_length_le _)

/-- C10: `html.escape` with `quote=False` escapes ONLY the ampersand,
the opening angle bracket and the closing angle bracket; the
double-quote and single-quote characters pass through unescaped, both
through the per-character escape and through the whole of `safe_text`. -/
theorem claim_C10_escape_set : ∀ c : Char,
    (c ≠ Char.ofNat 38 → c ≠ Char.ofNat 60 → c ≠ Char.ofNat 62 → escapeChar c = [c])
    ∧ escapeChar (Char.ofNat 38) = [Char.ofNat 38, 'a', 'm', 'p', ';']
    ∧ escapeChar (Char.ofNat 60) = [Char.ofNat 38, 'l', 't', ';']
    ∧ escapeChar (Char.ofNat 62) = [Char.ofNat 38, 'g', 't', ';']
    ∧ escapeChar (Char.ofNat 34) = [Char.ofNat 34]
    ∧ escapeChar (Char.ofNat 39) = [Char.ofNat 39]
    ∧ safe_text (String.mk [Char.ofNat 34, Char.ofNat 39])
        = String.mk [Char.ofNat 34, Char.ofNat 39] := by
  intro c
  refine ⟨?_, by decide, by decide, by decide, by decide, by decide, by decide⟩
  intro h1 h2 h3
  unfold escapeChar
  rw [if_neg (by simp [h1]), if_neg (by simp [h2]), if_neg (by simp [h3])]

/-- C10 (witness): a letter passes through the escape unchanged. -/
theorem claim_C10_witness : escapeChar 'x' = ['x'] :=
  (claim_C10_escape_set 'x').1 (by decide) (by decide) (by decide)
